import Mathlib

/-!
Shallow embedding of the admission-control and resilient-execution core of
the repository (src/automation.py, src/main.py).

External effects (psutil metric sampling, Playwright calls, sleeps) are
modelled as explicit parameters: a metric sample is a `Metrics` value (or
`Option Metrics` where the sample can fail), and each interaction strategy's
outcome is an oracle `Nat → Nat → Bool` (attempt index, strategy index) or an
`Option`/`Except` value.  Machine floats are modelled as rationals.
-/

namespace Panetone

/-- Host metrics as read by `psutil` in `ResourceManager.update_system_resources`
and `_calculate_limits` (src/automation.py lines 47-71): CPU utilisation
percentage, logical core count, and available memory in GB. -/
structure Metrics where
  cpuUsage : ℚ
  cpuCores : ℕ
  availableMemoryGb : ℚ
deriving DecidableEq

/-- `self.cpu_per_instance = 0.5` (src/automation.py line 40). -/
def cpuPerInstance : ℚ := 0.5

/-- `self.memory_per_instance_gb = 0.5` (src/automation.py line 39). -/
def memoryPerInstanceGb : ℚ := 0.5

/-- Embedding of `ResourceManager._calculate_limits` (src/automation.py lines
66-82): `cpu_limit = floor((100 - cpu_usage)/100 * cores / 0.5)`,
`memory_limit = floor(available_memory_gb / 0.5)`,
`max_instances = max(1, min(cpu_limit, memory_limit))`. -/
def calculateLimits (cpuUsage : ℚ) (cores : ℕ) (availGb : ℚ) : ℤ :=
  let cpuLimit : ℤ := ⌊(100 - cpuUsage) / 100 * (cores : ℚ) / cpuPerInstance⌋
  let memoryLimit : ℤ := ⌊availGb / memoryPerInstanceGb⌋
  max 1 (min cpuLimit memoryLimit)

/-- The spec's formula, written from §4.1 of the specification:
`max(1, min(floor((100 − cpu_util)/100 × cores / cpu_cost_per_job),
floor(available_memory_GB / mem_cost_per_job_GB)))` with the design defaults
`cpu_cost_per_job = 0.5` and `mem_cost_per_job_GB = 0.5`. -/
def specMaxConcurrentJobs (cpuUtil : ℚ) (cores : ℕ) (availableMemoryGb : ℚ) : ℤ :=
  max 1 (min ⌊(100 - cpuUtil) / 100 * (cores : ℚ) / (0.5 : ℚ)⌋
           ⌊availableMemoryGb / (0.5 : ℚ)⌋)

/-- `calculateLimits` applied to a `Metrics` record, clamped into `ℕ`
(the value is always ≥ 1, so `toNat` loses nothing). -/
def limitsNat (m : Metrics) : ℕ :=
  (calculateLimits m.cpuUsage m.cpuCores m.availableMemoryGb).toNat

/-- The derived limit is at least 1 (`max(1, ...)`, src/automation.py line 80). -/
theorem one_le_calculateLimits (u : ℚ) (c : ℕ) (g : ℚ) :
    1 ≤ calculateLimits u c g :=
  le_max_left 1 _

theorem one_le_limitsNat (m : Metrics) : 1 ≤ limitsNat m := by
  have h := one_le_calculateLimits m.cpuUsage m.cpuCores m.availableMemoryGb
  have h2 := Int.toNat_le_toNat h
  simpa [limitsNat] using h2

/-- Embedding of the capacity-refresh path taken by `check_resources`
(src/automation.py lines 47-90): `update_system_resources` and
`_calculate_limits` read host metrics through `psutil` with no exception
handler anywhere on the path (`update_system_resources`, `_calculate_limits`,
`check_resources`, `acquire_instance` contain no try/except), so a failed
sample is modelled as `none` and propagates as `Except.error`. -/
def checkResourcesResult (sample : Option Metrics) : Except Unit ℤ :=
  match sample with
  | none => Except.error ()
  | some m => Except.ok (calculateLimits m.cpuUsage m.cpuCores m.availableMemoryGb)

/-- Claim C4 (confirmed): for every host metric reading, `_calculate_limits`
derives exactly the spec's formula
`max(1, min(floor((100 − cpu_util)/100 × cores / 0.5), floor(available_memory_GB / 0.5)))`,
and the derived value is never less than 1. -/
theorem claim_C4_capacity_formula (u : ℚ) (c : ℕ) (g : ℚ) :
    calculateLimits u c g = specMaxConcurrentJobs u c g ∧
    1 ≤ calculateLimits u c g :=
  ⟨rfl, one_le_calculateLimits u c g⟩

/-- Claim C5 (corrected), counterexample: when the metric sample fails, the
capacity-estimation path does not fall back to a capacity of 1; the error
propagates to the caller (there is no try/except on the path). -/
theorem claim_C5_counterexample :
    checkResourcesResult none = Except.error () ∧
    ¬ checkResourcesResult none = Except.ok 1 :=
  ⟨rfl, fun h => Except.noConfusion h⟩

/-- Claim C5 (corrected), amended: when metrics are sampled successfully the
derived capacity is at least 1 (the `max(1, ...)` clamp); when sampling fails
the exception propagates out of the capacity-estimation path to the caller —
there is no fallback to a fixed capacity of 1. -/
theorem claim_C5_amended :
    checkResourcesResult none = Except.error () ∧
    ∀ m : Metrics,
      checkResourcesResult (some m) =
        Except.ok (calculateLimits m.cpuUsage m.cpuCores m.availableMemoryGb) ∧
      1 ≤ calculateLimits m.cpuUsage m.cpuCores m.availableMemoryGb :=
  ⟨rfl, fun m => ⟨rfl, one_le_calculateLimits m.cpuUsage m.cpuCores m.availableMemoryGb⟩⟩

/-! ### ResourceManager state (src/automation.py lines 21-112) -/

/-- The mutable state of `ResourceManager` relevant to admission:
`self.active_instances` (a set of instance ids, modelled as `ℕ`) and
`self.max_instances`. -/
structure RMState where
  activeInstances : Finset ℕ
  maxInstances : ℕ
deriving DecidableEq

/-- `_initialize` (src/automation.py lines 32-45): empty active set, limit
computed from a first metric sample. -/
def initRM (m : Metrics) : RMState :=
  ⟨∅, limitsNat m⟩

/-- `check_resources` (src/automation.py lines 84-90): recomputes the limit
from a fresh sample only when the 10 s refresh interval has elapsed.  The
argument is the fresh sample (`none` = interval not elapsed, cached snapshot
reused). -/
def checkResources (s : RMState) (sample : Option Metrics) : RMState :=
  match sample with
  | none => s
  | some m => { s with maxInstances := limitsNat m }

/-- `acquire_instance` (src/automation.py lines 92-103): refresh via
`check_resources`, then under the lock: if `len(active) >= max` return
`False`, else add the id and return `True`. -/
def acquireInstance (s : RMState) (instanceId : ℕ) (sample : Option Metrics) :
    Bool × RMState :=
  let s1 := checkResources s sample
  if s1.maxInstances ≤ s1.activeInstances.card then (false, s1)
  else (true, { s1 with activeInstances := insert instanceId s1.activeInstances })

/-- `release_instance` (src/automation.py lines 105-112): `discard` the id
(a no-op when absent, never raising), then force a recomputation of the limit
from a fresh sample. -/
def releaseInstance (s : RMState) (instanceId : ℕ) (m : Metrics) : RMState :=
  { activeInstances := s.activeInstances.erase instanceId
    maxInstances := limitsNat m }

/-- Claim C9 (confirmed): `acquire_instance` admits (returns `true` and adds
the id) exactly when the active count is strictly below the current
`max_instances` (after the throttled refresh); otherwise it returns `false`
and leaves the active set unchanged. -/
theorem claim_C9_try_admit (s : RMState) (instanceId : ℕ) (sample : Option Metrics) :
    acquireInstance s instanceId sample =
      (if (checkResources s sample).activeInstances.card <
            (checkResources s sample).maxInstances
       then (true, { checkResources s sample with
                      activeInstances :=
                        insert instanceId (checkResources s sample).activeInstances })
       else (false, checkResources s sample)) ∧
    ((acquireInstance s instanceId sample).1 = true ↔
      (checkResources s sample).activeInstances.card <
        (checkResources s sample).maxInstances) := by
  by_cases h : (checkResources s sample).maxInstances ≤
      (checkResources s sample).activeInstances.card
  · constructor
    · simp [acquireInstance, h, Nat.not_lt.2 h]
    · simp [acquireInstance, h, Nat.not_lt.2 h]
  · have h' := Nat.lt_of_not_le h
    constructor
    · simp [acquireInstance, h, h']
    · simp [acquireInstance, h, h']

/-- Claim C10 (confirmed): releasing an id that is not in the active set
leaves the membership unchanged (Python's `set.discard` is a harmless no-op
that never raises) while still forcing a capacity recomputation. -/
theorem claim_C10_release_unknown (s : RMState) (instanceId : ℕ) (m : Metrics)
    (h : instanceId ∉ s.activeInstances) :
    (releaseInstance s instanceId m).activeInstances = s.activeInstances ∧
    (releaseInstance s instanceId m).maxInstances = limitsNat m :=
  ⟨by simp [releaseInstance, Finset.erase_eq_of_not_mem h], rfl⟩

/-! ### Event traces over the ResourceManager (claim C1) -/

/-- One admission-control event: an `acquire_instance` call (with its
throttled-refresh sample) or a `release_instance` call (with the sample of
its forced recomputation). -/
inductive RMEvent where
  | acq (instanceId : ℕ) (sample : Option Metrics)
  | rel (instanceId : ℕ) (sample : Metrics)

/-- State transition of one event. -/
def stepRM (s : RMState) : RMEvent → RMState
  | RMEvent.acq i sample => (acquireInstance s i sample).2
  | RMEvent.rel i m => releaseInstance s i m

/-- Final state after a sequence of events. -/
def runRM (s : RMState) : List RMEvent → RMState
  | [] => s
  | e :: es => runRM (stepRM s e) es

/-- All states visited by a sequence of events (the "instants"). -/
def trajRM (s : RMState) : List RMEvent → List RMState
  | [] => [s]
  | e :: es => s :: trajRM (stepRM s e) es

/-- The spec's invariant `|ActiveJobSet| ≤ max concurrent jobs`. -/
def invariantRM (s : RMState) : Prop :=
  s.activeInstances.card ≤ s.maxInstances

/-- A recomputation event does not undershoot: the freshly computed limit is
at least the active count at that moment.  (Events that reuse the cached
snapshot are always OK.) -/
def stepOkB (s : RMState) : RMEvent → Bool
  | RMEvent.acq _ none => true
  | RMEvent.acq _ (some m) => decide (s.activeInstances.card ≤ limitsNat m)
  | RMEvent.rel _ m => decide (s.activeInstances.card ≤ limitsNat m)

/-- `stepOkB` along a whole trace. -/
def traceOkB (s : RMState) : List RMEvent → Bool
  | [] => true
  | e :: es => stepOkB s e && traceOkB (stepRM s e) es

theorem stepRM_invariant (s : RMState) (e : RMEvent)
    (h0 : invariantRM s) (hok : stepOkB s e = true) :
    invariantRM (stepRM s e) := by
  cases e with
  | acq i sample =>
    cases sample with
    | none =>
      by_cases h : s.maxInstances ≤ s.activeInstances.card
      · simpa [stepRM, acquireInstance, checkResources, h] using h0
      · have h' := Nat.lt_of_not_le h
        have hc : (insert i s.activeInstances).card ≤ s.activeInstances.card + 1 :=
          Finset.card_insert_le i s.activeInstances
        simp only [stepRM, acquireInstance, checkResources, h, if_neg h]
        exact le_trans hc (Nat.succ_le_of_lt h')
    | some m =>
      have hk : s.activeInstances.card ≤ limitsNat m := by
        simpa [stepOkB] using hok
      by_cases h : limitsNat m ≤ s.activeInstances.card
      · simpa [stepRM, acquireInstance, checkResources, invariantRM, h] using hk
      · have h' := Nat.lt_of_not_le h
        have hc : (insert i s.activeInstances).card ≤ s.activeInstances.card + 1 :=
          Finset.card_insert_le i s.activeInstances
        simp only [stepRM, acquireInstance, checkResources, if_neg h]
        exact le_trans hc (Nat.succ_le_of_lt h')
  | rel i m =>
    have hk : s.activeInstances.card ≤ limitsNat m := by
      simpa [stepOkB] using hok
    have hc : (s.activeInstances.erase i).card ≤ s.activeInstances.card :=
      Finset.card_erase_le
    exact le_trans hc hk

/-- Concrete metric samples used for evaluation: `mTwo` yields a limit of 2,
`mOne` a limit of 1. -/
def mTwo : Metrics := ⟨0, 1, 1⟩

def mOne : Metrics := ⟨50, 1, 0.5⟩

theorem limitsNat_mTwo : limitsNat mTwo = 2 := by
  have h : calculateLimits 0 1 1 = 2 := by
    norm_num [calculateLimits, cpuPerInstance, memoryPerInstanceGb]
  simp [limitsNat, mTwo, h]

theorem limitsNat_mOne : limitsNat mOne = 1 := by
  have h : calculateLimits 50 1 0.5 = 1 := by
    norm_num [calculateLimits, cpuPerInstance, memoryPerInstanceGb]
  simp [limitsNat, mOne, h]

/-- Witness for C10: releasing id 7, which is not in the (empty) active set
of the initial state, leaves membership unchanged and recomputes the
capacity. -/
theorem claim_C10_witness :
    (releaseInstance (initRM mTwo) 7 mOne).activeInstances =
      (initRM mTwo).activeInstances ∧
    (releaseInstance (initRM mTwo) 7 mOne).maxInstances = limitsNat mOne :=
  claim_C10_release_unknown (initRM mTwo) 7 mOne (by simp [initRM])

/-- Trace for the C1 counterexample: two admissions at capacity 2, then an
`acquire_instance` call whose throttled refresh recomputes the capacity down
to 1 while both jobs are still active. -/
def badTraceRM : List RMEvent :=
  [RMEvent.acq 0 none, RMEvent.acq 1 none, RMEvent.acq 2 (some mOne)]

/-- Claim C1 (corrected), counterexample: starting from the initial state
with capacity 2, after admitting jobs 0 and 1 a capacity recomputation (in
the third `acquire_instance` call's `check_resources`) lowers
`max_instances` to 1 while both jobs are still active; at that instant
`|active_instances| = 2 > max_instances = 1`, violating the invariant. -/
theorem claim_C1_counterexample :
    (runRM (initRM mTwo) badTraceRM).maxInstances <
      (runRM (initRM mTwo) badTraceRM).activeInstances.card := by
  simp only [badTraceRM, runRM, stepRM, initRM, acquireInstance, checkResources,
    limitsNat_mTwo, limitsNat_mOne]
  decide

/-- Claim C1 (corrected), amended: the invariant `|active_instances| ≤
max_instances` holds at every instant of every admit/release/recomputation
trace, provided every capacity recomputation yields a limit that is at least
the active count at that moment; admission itself never violates the
invariant, but a recomputation that lowers `max_instances` below the current
active count violates it immediately (see the counterexample). -/
theorem claim_C1_invariant (s : RMState) (es : List RMEvent)
    (h0 : invariantRM s) (hok : traceOkB s es = true) :
    ∀ s' ∈ trajRM s es, invariantRM s' := by
  induction es generalizing s with
  | nil =>
    intro s' hs'
    simp only [trajRM, List.mem_singleton] at hs'
    exact hs' ▸ h0
  | cons e es ih =>
    intro s' hs'
    simp only [trajRM, List.mem_cons] at hs'
    rcases hs' with rfl | hs'
    · exact h0
    · have hok1 : stepOkB s e = true := by
        simp only [traceOkB, Bool.and_eq_true] at hok
        exact hok.1
      have hok2 : traceOkB (stepRM s e) es = true := by
        simp only [traceOkB, Bool.and_eq_true] at hok
        exact hok.2
      exact ih (stepRM s e) (stepRM_invariant s e h0 hok1) hok2 s' hs'

/-- Witness for the amended C1: a concrete one-event trace whose visited
states all satisfy the invariant. -/
theorem claim_C1_witness :
    invariantRM (stepRM (initRM mTwo) (RMEvent.acq 0 none)) :=
  claim_C1_invariant (initRM mTwo) [RMEvent.acq 0 none]
    (by simp [invariantRM, initRM])
    (by decide)
    (stepRM (initRM mTwo) (RMEvent.acq 0 none))
    (List.Mem.tail _ (List.Mem.head _))

/-! ### Job queue and scheduler (src/main.py lines 28-155, claim C3)

`main.py` keeps its own `active_runs : Set[str]`, a FIFO `queued_tasks :
asyncio.Queue`, and reads `resource_manager.max_instances`.  The scheduler
state carries the current value of that field; an optional `ℕ` on an event is
its value after a capacity recomputation (`check_resources` in `create_run`,
or the forced recomputation in `release_instance` before the drain runs) —
by `one_le_limitsNat` any recomputed value is some `limitsNat m ≥ 1`. -/

/-- Scheduler state: `active_runs`, `queued_tasks` (FIFO list, head = front),
the current `resource_manager.max_instances`, and the order in which jobs
were started (`asyncio.create_task(automation_task ...)`). -/
structure SchedState where
  activeRuns : Finset ℕ
  queuedTasks : List ℕ
  maxInstances : ℕ
  started : List ℕ
deriving DecidableEq

/-- Initial scheduler state: no active runs, empty queue, capacity from the
ResourceManager singleton's initial computation. -/
def initSched (m0 : ℕ) : SchedState :=
  ⟨∅, [], m0, []⟩

/-- `process_queue` (src/main.py lines 83-92): while the queue is non-empty
and `len(active_runs) < max_instances`, pop the head, add it to
`active_runs`, mark it running, and start its task. -/
def processQueue (queue : List ℕ) (active : Finset ℕ) (maxI : ℕ)
    (started : List ℕ) : SchedState :=
  match queue with
  | [] => ⟨active, [], maxI, started⟩
  | j :: rest =>
    if active.card < maxI then
      processQueue rest (insert j active) maxI (started ++ [j])
    else
      ⟨active, j :: rest, maxI, started⟩

/-- One scheduler event: a job submission (`create_run`, src/main.py lines
135-155) or a running job terminating (`automation_task`'s `finally`,
src/main.py lines 79-81).  The optional `ℕ` is the refreshed
`max_instances` (see the section comment). -/
inductive SchedEvent where
  | submit (j : ℕ) (refreshed : Option ℕ)
  | complete (j : ℕ) (refreshed : Option ℕ)

/-- `create_run`: after `check_resources`, if `len(active_runs) <
max_instances` the job starts immediately; otherwise it is appended to the
tail of the queue. -/
def createRun (s : SchedState) (j : ℕ) (refreshed : Option ℕ) : SchedState :=
  let m := refreshed.getD s.maxInstances
  if s.activeRuns.card < m then
    ⟨insert j s.activeRuns, s.queuedTasks, m, s.started ++ [j]⟩
  else
    ⟨s.activeRuns, s.queuedTasks ++ [j], m, s.started⟩

/-- `automation_task`'s terminal path: `run_automation`'s `finally` released
the instance (forcing a capacity recomputation), then `active_runs.remove`
and `process_queue()`. -/
def completeRun (s : SchedState) (j : ℕ) (refreshed : Option ℕ) : SchedState :=
  let m := refreshed.getD s.maxInstances
  processQueue s.queuedTasks (s.activeRuns.erase j) m s.started

/-- State transition of one scheduler event. -/
def stepSched (s : SchedState) : SchedEvent → SchedState
  | SchedEvent.submit j r => createRun s j r
  | SchedEvent.complete j r => completeRun s j r

/-- Final state after a sequence of scheduler events. -/
def runSched (s : SchedState) : List SchedEvent → SchedState
  | [] => s
  | e :: es => runSched (stepSched s e) es

/-- Trace for the C3 counterexample: capacity 2; jobs 0 and 1 start
immediately, job 2 is queued; then job 3 is submitted just after a
recomputation raised the capacity to 3 — `create_run` starts job 3
immediately, bypassing the still-queued job 2. -/
def overtakeTrace : List SchedEvent :=
  [SchedEvent.submit 0 none, SchedEvent.submit 1 none,
   SchedEvent.submit 2 none, SchedEvent.submit 3 (some 3)]

/-- Claim C3 (corrected), counterexample: job 2 entered the queue before job 3
was submitted, yet job 3 begins running (it is in `started`) while job 2 is
still queued and never started — a later-submitted job overtakes an
earlier-queued one.  The jobs started are, in order, 0, 1, 3. -/
theorem claim_C3_counterexample :
    (runSched (initSched 2) overtakeTrace).started = [0, 1, 3] ∧
    (runSched (initSched 2) overtakeTrace).queuedTasks = [2] := by
  constructor <;> decide

/-- Claim C3 (corrected), amended: jobs admitted from the queue are started
in strict FIFO order — every `process_queue` drain starts a prefix of the
pending queue, in queue order, and leaves exactly the corresponding suffix
queued; but a job submitted while the active count is below capacity starts
immediately, ahead of any jobs already waiting in the queue (see the
counterexample). -/
theorem claim_C3_fifo_drain (queue : List ℕ) (active : Finset ℕ) (maxI : ℕ)
    (started : List ℕ) :
    ∃ k, (processQueue queue active maxI started).started =
            started ++ queue.take k ∧
         (processQueue queue active maxI started).queuedTasks = queue.drop k := by
  induction queue generalizing active started with
  | nil => exact ⟨0, by simp [processQueue], by simp [processQueue]⟩
  | cons j rest ih =>
    by_cases h : active.card < maxI
    · obtain ⟨k, h1, h2⟩ := ih (insert j active) (started ++ [j])
      refine ⟨k + 1, ?_, ?_⟩
      · simpa [processQueue, h] using h1
      · simpa [processQueue, h] using h2
    · exact ⟨0, by simp [processQueue, h], by simp [processQueue, h]⟩

/-! ### Job runner exit paths (src/automation.py lines 948-990,
src/main.py lines 57-81, claim C6) -/

/-- Events emitted while one job runs: acquiring its slot, the automation
body's steps (`initialize`, `login`, `verificar_elegibilidade`), the
`release_instance` call, the terminal status record, and the
`process_queue()` drain. -/
inductive RunnerEvent where
  | acquireSlot
  | bodyStep (i : ℕ)
  | releaseSlot
  | recordStatus (completed : Bool)
  | drainQueue
deriving DecidableEq

/-- Outcome of the automation body inside `run_automation`'s `try`: `none`
means all three steps succeed, `some k` means step `k` raises (exceptions
from the driver or from exhausted retries). -/
def bodyEvents : Option (Fin 3) → List RunnerEvent
  | none => [RunnerEvent.bodyStep 0, RunnerEvent.bodyStep 1, RunnerEvent.bodyStep 2]
  | some k => (List.range (k.val + 1)).map RunnerEvent.bodyStep

/-- `run_automation` (src/automation.py lines 948-990): after the acquire
loop succeeds, the body runs inside `try`, and the `finally` block calls
`release_instance(run_id)` on every exit path — normal return or exception
at any step. -/
def runAutomationEvents (outcome : Option (Fin 3)) : List RunnerEvent :=
  [RunnerEvent.acquireSlot] ++ bodyEvents outcome ++ [RunnerEvent.releaseSlot]

/-- `automation_task` (src/main.py lines 57-81): `run_automation` returns →
record `completed`; it raises → the `except` records `failed`; the `finally`
then removes the run and awaits `process_queue()`. -/
def automationTaskEvents (outcome : Option (Fin 3)) : List RunnerEvent :=
  runAutomationEvents outcome ++
    [RunnerEvent.recordStatus outcome.isNone] ++ [RunnerEvent.drainQueue]

/-- Claim C6 (confirmed): on every exit path of the runner — the body
succeeding or raising at any step — `release_instance` is emitted exactly
once, the queue drain exactly once, and the drain strictly after the
release. -/
theorem claim_C6_release_once (outcome : Option (Fin 3)) :
    (automationTaskEvents outcome).count RunnerEvent.releaseSlot = 1 ∧
    (automationTaskEvents outcome).count RunnerEvent.drainQueue = 1 ∧
    (automationTaskEvents outcome).indexOf RunnerEvent.releaseSlot <
      (automationTaskEvents outcome).indexOf RunnerEvent.drainQueue := by
  cases outcome with
  | none => decide
  | some k => fin_cases k <;> decide

/-! ### Resilient action executor (src/automation.py lines 117-138,
207-302, 324-377, 586-621; claims C7, C8)

Each interaction strategy is an external driver call; its outcome on a given
attempt is abstracted as an oracle `strat : ℕ → ℕ → Bool` (attempt index,
strategy index).  The embedding counts strategy invocations so that "number
of tries" and "never invokes later strategies" are expressible. -/

/-- One pass over the remaining strategies of an attempt (the inner
strategy sequence of `_try_fill_input` / `_try_click_button`): returns
whether some strategy succeeded and how many strategies were invoked.  A
success returns immediately; a failure falls through to the next strategy. -/
def passFrom (strat : ℕ → ℕ → Bool) (a : ℕ) : ℕ → ℕ → Bool × ℕ
  | _, 0 => (false, 0)
  | s, rem + 1 =>
    if strat a s then (true, 1)
    else
      let r := passFrom strat a (s + 1) rem
      (r.1, r.2 + 1)

/-- The attempt loop (`for attempt in range(max_attempts)`): each attempt
runs one pass over all `n` strategies; a successful pass returns
immediately, otherwise the loop retries (after a backoff sleep) and finally
returns `False`.  Returns the result and the total number of strategy
invocations. -/
def attemptsRun (strat : ℕ → ℕ → Bool) (n : ℕ) : ℕ → ℕ → Bool × ℕ
  | _, 0 => (false, 0)
  | a, rem + 1 =>
    let p := passFrom strat a 0 n
    if p.1 then (true, p.2)
    else
      let q := attemptsRun strat n (a + 1) rem
      (q.1, p.2 + q.2)

/-- `_try_fill_input` (src/automation.py lines 207-302): per attempt it has
5 strategies when `is_cpf` (two CPF-specific ones first) and 3 otherwise,
and returns `False` after `max_attempts` failed attempts. -/
def tryFillInput (strat : ℕ → ℕ → Bool) (maxAttempts : ℕ) (isCpf : Bool) :
    Bool × ℕ :=
  attemptsRun strat (if isCpf then 5 else 3) 0 maxAttempts

/-- `_try_click_button` (src/automation.py lines 324-377): per attempt it
tries 4 click strategies in order, returning `True` on the first success. -/
def tryClickButton (strat : ℕ → ℕ → Bool) (maxAttempts : ℕ) : Bool × ℕ :=
  attemptsRun strat 4 0 maxAttempts

/-- Result of the `retry_on_failure` decorator (src/automation.py lines
117-138): success, an `AutomationError` wrapping the last error after all
retries failed, or the degenerate `max_retries = 0` path (the loop body
never runs and the trailing `raise last_error` re-raises `None`). -/
inductive RetryResult (ε α : Type) where
  | ok (a : α)
  | failed (last : ε)
  | noAttempt

/-- `retry_on_failure(max_retries, delay)` around a fallible operation
`f` (indexed by attempt): return on success; on failure sleep and retry,
and on the final attempt raise `AutomationError` carrying the last error. -/
def retryRun {ε α : Type} (f : ℕ → Except ε α) : ℕ → ℕ → RetryResult ε α
  | _, 0 => RetryResult.noAttempt
  | a, rem + 1 =>
    match f a with
    | Except.ok v => RetryResult.ok v
    | Except.error e =>
      if rem = 0 then RetryResult.failed e else retryRun f (a + 1) rem

theorem passFrom_all_false (strat : ℕ → ℕ → Bool) (a : ℕ)
    (h : ∀ s, strat a s = false) :
    ∀ rem s, passFrom strat a s rem = (false, rem) := by
  intro rem
  induction rem with
  | zero => intro s; rfl
  | succ rem ih =>
    intro s
    simp [passFrom, h s, ih (s + 1)]

theorem attemptsRun_all_false (strat : ℕ → ℕ → Bool) (n : ℕ)
    (h : ∀ a s, strat a s = false) :
    ∀ rem a, attemptsRun strat n a rem = (false, rem * n) := by
  intro rem
  induction rem with
  | zero => intro a; simp [attemptsRun]
  | succ rem ih =>
    intro a
    have hp := passFrom_all_false strat a (h a) n 0
    simp [attemptsRun, hp, ih (a + 1), Nat.succ_mul, Nat.add_comm]

theorem retryRun_all_error {ε α : Type} (f : ℕ → Except ε α) (errs : ℕ → ε)
    (h : ∀ a, f a = Except.error (errs a)) :
    ∀ rem a, 1 ≤ rem → retryRun f a rem = RetryResult.failed (errs (a + rem - 1)) := by
  intro rem
  induction rem with
  | zero => intro a h0; omega
  | succ rem ih =>
    intro a _
    by_cases hr : rem = 0
    · subst hr; simp [retryRun, h a]
    · have h1 : 1 ≤ rem := Nat.one_le_iff_ne_zero.mpr hr
      have h2 := ih (a + 1) h1
      have harg : a + 1 + rem - 1 = a + (rem + 1) - 1 := by omega
      rw [harg] at h2
      simp [retryRun, h a, if_neg hr, h2]

/-- Claim C7 (confirmed): when every strategy always fails, the executor
returns the failure result `False` only after exhausting exactly
`max_attempts × len(strategies)` strategy invocations (it does not loop
forever), and the `retry_on_failure` layer surfaces an `AutomationError`
carrying the error of the last attempt. -/
theorem claim_C7_bounded_failure {ε α : Type}
    (strat : ℕ → ℕ → Bool) (maxAttempts : ℕ) (isCpf : Bool)
    (hall : ∀ a s, strat a s = false)
    (f : ℕ → Except ε α) (errs : ℕ → ε)
    (hf : ∀ a, f a = Except.error (errs a))
    (maxRetries : ℕ) (hr : 1 ≤ maxRetries) :
    tryFillInput strat maxAttempts isCpf =
      (false, maxAttempts * (if isCpf then 5 else 3)) ∧
    retryRun f 0 maxRetries = RetryResult.failed (errs (maxRetries - 1)) := by
  constructor
  · exact attemptsRun_all_false strat _ hall maxAttempts 0
  · simpa using retryRun_all_error f errs hf maxRetries 0 hr

/-- Witness for C7 at concrete inputs: 2 attempts over the 3 non-CPF
strategies all failing give `(false, 6)`; 3 retries of an always-failing
operation surface the error of the last attempt (index 2). -/
theorem claim_C7_witness :
    tryFillInput (fun _ _ => false) 2 false = (false, 6) ∧
    retryRun (fun a => (Except.error a : Except ℕ Unit)) 0 3 =
      RetryResult.failed 2 :=
  claim_C7_bounded_failure (fun _ _ => false) 2 false (fun _ _ => rfl)
    (fun a => Except.error a) (fun a => a) (fun _ => rfl) 3 (by decide)

/-- The result of `_find_element_smart` (src/automation.py lines 586-621):
an element, an `AutomationError` when `required`, or `None` otherwise. -/
inductive FindOutcome (α : Type) where
  | found (a : α)
  | errorNotFound
  | noneFound
deriving DecidableEq

/-- `_find_element_smart`: iterate the strategy list in order; each entry's
outcome (element found, or falsy result / timeout / exception) is an
`Option α`; the first hit returns immediately.  Also counts how many
strategies were examined. -/
def findElementSmart {α : Type} : List (Option α) → Bool → FindOutcome α × ℕ
  | [], required =>
    (if required then FindOutcome.errorNotFound else FindOutcome.noneFound, 0)
  | none :: rest, required =>
    let r := findElementSmart rest required
    (r.1, r.2 + 1)
  | some v :: _, _ => (FindOutcome.found v, 1)

theorem passFrom_first_success (strat : ℕ → ℕ → Bool) (a : ℕ) :
    ∀ j s rem, (∀ t, t < j → strat a (s + t) = false) → strat a (s + j) = true →
      j < rem → passFrom strat a s rem = (true, j + 1) := by
  intro j
  induction j with
  | zero =>
    intro s rem _ hj hlt
    obtain ⟨rem', rfl⟩ : ∃ rem', rem = rem' + 1 :=
      ⟨rem - 1, (Nat.succ_pred_eq_of_pos hlt).symm⟩
    simp only [Nat.add_zero] at hj
    simp [passFrom, hj]
  | succ j ih =>
    intro s rem hpre hj hlt
    obtain ⟨rem', rfl⟩ : ∃ rem', rem = rem' + 1 :=
      ⟨rem - 1, (Nat.succ_pred_eq_of_pos (Nat.lt_of_le_of_lt (Nat.zero_le _) hlt)).symm⟩
    have h0 : strat a s = false := by
      have := hpre 0 (Nat.succ_pos j)
      simpa using this
    have hpre' : ∀ t, t < j → strat a (s + 1 + t) = false := by
      intro t ht
      have := hpre (t + 1) (Nat.succ_lt_succ ht)
      simpa [Nat.add_assoc, Nat.add_comm 1 t] using this
    have hj' : strat a (s + 1 + j) = true := by
      simpa [Nat.add_assoc, Nat.add_comm 1 j] using hj
    have hlt' : j < rem' := Nat.lt_of_succ_lt_succ hlt
    simp [passFrom, h0, ih (s + 1) rem' hpre' hj' hlt']

theorem findElementSmart_first_success {α : Type} (v : α) (required : Bool) :
    ∀ (pre post : List (Option α)), (∀ x ∈ pre, x = none) →
      findElementSmart (pre ++ some v :: post) required =
        (FindOutcome.found v, pre.length + 1) := by
  intro pre
  induction pre with
  | nil => intro post _; rfl
  | cons x rest ih =>
    intro post hpre
    have hx : x = none := hpre x (List.mem_cons_self x rest)
    subst hx
    have := ih post (fun y hy => hpre y (List.mem_cons_of_mem none hy))
    simp [findElementSmart, this]

/-- Claim C8 (confirmed): when the strategy at index `idx` always succeeds
and every strategy before it always fails, the executor succeeds on the
first attempt using that strategy and never invokes a strategy after it —
both in the click loop (`_try_click_button`: exactly `idx + 1` invocations)
and in `_find_element_smart` (exactly `pre.length + 1` strategies
examined). -/
theorem claim_C8_priority_order {α : Type}
    (strat : ℕ → ℕ → Bool) (maxAttempts idx : ℕ)
    (hpre : ∀ s, s < idx → strat 0 s = false) (hidx : strat 0 idx = true)
    (hn : idx < 4) (hatt : 1 ≤ maxAttempts)
    (v : α) (required : Bool) (pre post : List (Option α))
    (hlist : ∀ x ∈ pre, x = none) :
    tryClickButton strat maxAttempts = (true, idx + 1) ∧
    findElementSmart (pre ++ some v :: post) required =
      (FindOutcome.found v, pre.length + 1) := by
  constructor
  · obtain ⟨rem, rfl⟩ : ∃ rem, maxAttempts = rem + 1 :=
      ⟨maxAttempts - 1, (Nat.succ_pred_eq_of_pos hatt).symm⟩
    have hp : passFrom strat 0 0 4 = (true, idx + 1) := by
      have := passFrom_first_success strat 0 idx 0 4 (fun t ht => by simpa using hpre t ht)
        (by simpa using hidx) hn
      exact this
    simp [tryClickButton, attemptsRun, hp]
  · exact findElementSmart_first_success v required pre post hlist

/-- Witness for C8 at concrete inputs: with strategy 2 the first to succeed,
the click loop succeeds after exactly 3 invocations, and
`_find_element_smart` returns the element of the third strategy after
examining exactly 3 strategies. -/
theorem claim_C8_witness :
    tryClickButton (fun _ s => decide (s = 2)) 3 = (true, 3) ∧
    findElementSmart [none, none, some 7] true = (FindOutcome.found 7, 3) := by
  have h := claim_C8_priority_order (α := ℕ) (fun _ s => decide (s = 2)) 3 2
    (by decide) (by decide) (by decide) (by decide)
    7 true [none, none] [] (by decide)
  simpa using h

/-! ### Outcome extraction ("classifier", src/automation.py lines 861-920,
claim C2)

`verificar_elegibilidade` does not produce a categorical outcome: it scans
page elements and returns the first element text that matches a keyword,
verbatim (lower-cased and stripped), falling back to the literal
`"Resultado Indeterminado"`.  Strategy 1 scans the `data-testid` elements
and checks `"elegível" in text or "elegivel" in text`; strategy 2 scans the
generic `h1..div` elements against the `text_match` keyword list.  Page
element texts are the input lists.  Lower-casing is modelled with
`Char.toLower` (ASCII; the keywords and all inputs used here contain no
non-ASCII uppercase letters, where Python's `str.lower` would differ). -/

/-- `pat` is a prefix of `hay` (character lists). -/
def startsWithChars : List Char → List Char → Bool
  | [], _ => true
  | _ :: _, [] => false
  | p :: ps, h :: hs => p == h && startsWithChars ps hs

/-- `pat` occurs somewhere in `hay` — Python's `pat in hay`. -/
def occursChars : List Char → List Char → Bool
  | pat, [] => pat.isEmpty
  | pat, h :: hs => startsWithChars pat (h :: hs) || occursChars pat hs

/-- Python's substring test `pat in hay` on strings. -/
def occursInStr (pat hay : String) : Bool :=
  occursChars pat.data hay.data

/-- `str.lower` (ASCII letters). -/
def lowerChars (l : List Char) : List Char := l.map Char.toLower

/-- `str.strip`. -/
def trimChars (l : List Char) : List Char :=
  ((l.dropWhile Char.isWhitespace).reverse.dropWhile Char.isWhitespace).reverse

/-- `text.lower().strip()` (src/automation.py line 886). -/
def normText (s : String) : String :=
  String.mk (trimChars (lowerChars s.data))

/-- The `text_match` list of the second result strategy
(src/automation.py line 870). -/
def resultKeywords : List String :=
  ["elegível", "elegivel", "não elegível", "nao elegivel", "inelegível", "inelegivel"]

/-- The keywords that phrase a negative result (the last four entries of
`text_match`); used to formalise the claim's "not eligible" signal. -/
def notEligKeywords : List String :=
  ["não elegível", "nao elegivel", "inelegível", "inelegivel"]

/-- Does any keyword of `kws` occur in `tx`? -/
def matchAny (kws : List String) (tx : String) : Bool :=
  kws.any (fun k => occursInStr k tx)

/-- The first strategy's per-element check:
`"elegível" in text or "elegivel" in text` (src/automation.py line 897). -/
def eligTextB (tx : String) : Bool :=
  occursInStr "elegível" tx || occursInStr "elegivel" tx

/-- Strategy 1 (src/automation.py lines 882-901, branch without
`text_match`): first `data-testid` element text whose lower-stripped form
passes the eligibility-keyword check. -/
def scanTestIdTexts : List String → Option String
  | [] => none
  | t :: ts =>
    let tx := normText t
    if eligTextB tx then some tx else scanTestIdTexts ts

/-- Strategy 2 (src/automation.py lines 867-895, branch with `text_match`):
first generic element text whose lower-stripped form contains any
`text_match` keyword. -/
def scanTaggedTexts : List String → Option String
  | [] => none
  | t :: ts =>
    let tx := normText t
    if matchAny resultKeywords tx then some tx else scanTaggedTexts ts

/-- The result-scan loop of `verificar_elegibilidade` (src/automation.py
lines 875-920): strategy 1, then strategy 2, else the default
`"Resultado Indeterminado"`; the matched raw text is returned verbatim. -/
def findResultText (testIdTexts tagTexts : List String) : String :=
  match scanTestIdTexts testIdTexts with
  | some t => t
  | none =>
    match scanTaggedTexts tagTexts with
    | some t => t
    | none => "Resultado Indeterminado"

/-- The claim's "eligible" signal over the page's element texts: some text
contains an eligibility keyword. -/
def eligSignalB (texts : List String) : Bool :=
  texts.any (fun t => eligTextB (normText t))

/-- The claim's "not eligible" signal over the page's element texts: some
text contains a negative-result keyword. -/
def notEligSignalB (texts : List String) : Bool :=
  texts.any (fun t => matchAny notEligKeywords (normText t))

/-- Claim C2 (corrected), counterexample: a page whose only result element
says "não elegível" makes both signals true (the eligible keyword
"elegível" is a substring of "não elegível"), yet the code returns the raw
text "não elegível" — a result carrying the not-eligible phrase, not an
Eligible verdict.  There is no precedence rule: the code returns page text
verbatim and never resolves conflicting signals in favour of Eligible. -/
theorem claim_C2_counterexample :
    eligSignalB ["não elegível"] = true ∧
    notEligSignalB ["não elegível"] = true ∧
    findResultText ["não elegível"] [] = "não elegível" ∧
    matchAny notEligKeywords (findResultText ["não elegível"] []) = true := by
  decide

theorem eligTextB_matches (tx : String) (h : eligTextB tx = true) :
    matchAny resultKeywords tx = true := by
  simp only [eligTextB, Bool.or_eq_true] at h
  simp only [matchAny, resultKeywords, List.any_cons, List.any_nil, Bool.or_eq_true]
  tauto

theorem scanTestIdTexts_some (ts : List String) (r : String)
    (h : scanTestIdTexts ts = some r) :
    r ∈ ts.map normText ∧ eligTextB r = true := by
  induction ts with
  | nil => simp [scanTestIdTexts] at h
  | cons t rest ih =>
    by_cases he : eligTextB (normText t) = true
    · simp only [scanTestIdTexts, he, if_true, Option.some_inj] at h
      subst h
      exact ⟨by simp, he⟩
    · have hb : eligTextB (normText t) = false := Bool.eq_false_iff.mpr he
      simp only [scanTestIdTexts, hb, Bool.false_eq_true, if_false] at h
      obtain ⟨hmem, hr⟩ := ih h
      exact ⟨by simp [List.mem_cons]; right; simpa using hmem, hr⟩

theorem scanTestIdTexts_isSome (ts : List String)
    (h : ts.any (fun t => eligTextB (normText t)) = true) :
    ∃ r, scanTestIdTexts ts = some r := by
  induction ts with
  | nil => simp at h
  | cons t rest ih =>
    by_cases he : eligTextB (normText t) = true
    · exact ⟨normText t, by simp [scanTestIdTexts, he]⟩
    · have hb : eligTextB (normText t) = false := Bool.eq_false_iff.mpr he
      simp only [List.any_cons, hb, Bool.false_or] at h
      obtain ⟨r, hr⟩ := ih h
      exact ⟨r, by simp [scanTestIdTexts, hb, hr]⟩

theorem scanTaggedTexts_some (ts : List String) (r : String)
    (h : scanTaggedTexts ts = some r) :
    r ∈ ts.map normText ∧ matchAny resultKeywords r = true := by
  induction ts with
  | nil => simp [scanTaggedTexts] at h
  | cons t rest ih =>
    by_cases he : matchAny resultKeywords (normText t) = true
    · simp only [scanTaggedTexts, he, if_true, Option.some_inj] at h
      subst h
      exact ⟨by simp, he⟩
    · have hb : matchAny resultKeywords (normText t) = false := Bool.eq_false_iff.mpr he
      simp only [scanTaggedTexts, hb, Bool.false_eq_true, if_false] at h
      obtain ⟨hmem, hr⟩ := ih h
      exact ⟨by simp [List.mem_cons]; right; simpa using hmem, hr⟩

theorem scanTaggedTexts_isSome (ts : List String)
    (h : ts.any (fun t => matchAny resultKeywords (normText t)) = true) :
    ∃ r, scanTaggedTexts ts = some r := by
  induction ts with
  | nil => simp at h
  | cons t rest ih =>
    by_cases he : matchAny resultKeywords (normText t) = true
    · exact ⟨normText t, by simp [scanTaggedTexts, he]⟩
    · have hb : matchAny resultKeywords (normText t) = false := Bool.eq_false_iff.mpr he
      simp only [List.any_cons, hb, Bool.false_or] at h
      obtain ⟨r, hr⟩ := ih h
      exact ⟨r, by simp [scanTaggedTexts, hb, hr]⟩

/-- Claim C2 (corrected), amended: when an "eligible" signal and a "not
eligible" signal are both present, the code does not return a categorical
Eligible — it returns the lower-stripped text of some page element that
matches a result keyword (the first one in scan order), verbatim; in
particular the returned text can itself be the not-eligible phrasing (see
the counterexample). -/
theorem claim_C2_amended (testIdTexts tagTexts : List String)
    (h1 : eligSignalB (testIdTexts ++ tagTexts) = true)
    (_h2 : notEligSignalB (testIdTexts ++ tagTexts) = true) :
    findResultText testIdTexts tagTexts ∈ (testIdTexts ++ tagTexts).map normText ∧
    matchAny resultKeywords (findResultText testIdTexts tagTexts) = true := by
  have hsplit : testIdTexts.any (fun t => eligTextB (normText t)) = true ∨
      tagTexts.any (fun t => eligTextB (normText t)) = true := by
    simpa [eligSignalB, List.any_append, Bool.or_eq_true] using h1
  cases hscan : scanTestIdTexts testIdTexts with
  | some r =>
    obtain ⟨hmem, helig⟩ := scanTestIdTexts_some testIdTexts r hscan
    refine ⟨?_, ?_⟩
    · simp only [findResultText, hscan, List.map_append]
      exact List.mem_append_left _ hmem
    · simp only [findResultText, hscan]
      exact eligTextB_matches r helig
  | none =>
    have htag : tagTexts.any (fun t => eligTextB (normText t)) = true := by
      rcases hsplit with hts | has
      · obtain ⟨r, hr⟩ := scanTestIdTexts_isSome testIdTexts hts
        rw [hscan] at hr
        exact absurd hr (by simp)
      · exact has
    have htag' : tagTexts.any (fun t => matchAny resultKeywords (normText t)) = true := by
      rw [List.any_eq_true] at htag ⊢
      obtain ⟨t, ht, hp⟩ := htag
      exact ⟨t, ht, eligTextB_matches _ (by simpa using hp)⟩
    obtain ⟨r, hr⟩ := scanTaggedTexts_isSome tagTexts htag'
    obtain ⟨hmem, hm⟩ := scanTaggedTexts_some tagTexts r hr
    refine ⟨?_, ?_⟩
    · simp only [findResultText, hscan, hr, List.map_append]
      exact List.mem_append_right _ hmem
    · simp only [findResultText, hscan, hr]
      exact hm

/-- Witness for the amended C2: a page with an eligible text and a
not-eligible text; the returned result is the normalised form of one of the
page texts and matches a result keyword. -/
theorem claim_C2_witness :
    findResultText ["Cliente Elegível"] ["não elegível"] ∈
      (["Cliente Elegível"] ++ ["não elegível"]).map normText ∧
    matchAny resultKeywords (findResultText ["Cliente Elegível"] ["não elegível"]) = true :=
  claim_C2_amended ["Cliente Elegível"] ["não elegível"] (by decide) (by decide)

end Panetone
